import Mathlib

/-!
Verification development for the music-bot download pipeline.

The embedding models, from the source:
  * the extraction-configuration builder (`get_ydl_options`),
  * link identification (`extract_spotify_id`),
  * filename sanitization (`sanitize_filename`),
  * output-path reconciliation and the search/download executor
    (`resolveOutput`, `download_audio`, `download_track`),
  * the collection (playlist/album) download loop (`runCollection`),
  * the workspace lifecycle manager (`cleanup_file`, `cleanup_all`).

Paths and other strings from the program are modelled as `List Char`;
the filesystem is modelled as the list of existing paths, and external
effects (the extraction backend, chat transport, OS faults) are
parameters of the functions that the source reads them through.
-/

/-- Strings of the program, modelled as lists of characters. -/
abbrev Str := List Char

/-- Converts a Lean string literal to the `Str` model. -/
def str (s : String) : Str := s.data

/-! ### Extraction-configuration builder (`_get_ydl_options`) -/

/-- The yt-dlp option dictionary built by `_get_ydl_options`, with the
keys the source sets. -/
structure YdlOptions where
  format : String
  noplaylist : Bool
  quiet : Bool
  no_warnings : Bool
  extractflat : Bool
  writesubtitles : Bool
  writeautomaticsub : Bool
  writedescription : Bool
  writeinfojson : Bool
  writethumbnail : Bool
  socket_timeout : Nat
  http_chunk_size : Nat
  retries : Nat
  fragment_retries : Nat
deriving DecidableEq, Repr

/-- The base option dictionary of `_get_ydl_options` (before the
quality-dependent overwrite of `format`). -/
def baseYdlOpts : YdlOptions where
  format := "bestaudio[ext=m4a]/bestaudio[ext=webm]/bestaudio"
  noplaylist := true
  quiet := true
  no_warnings := true
  extractflat := false
  writesubtitles := false
  writeautomaticsub := false
  writedescription := false
  writeinfojson := false
  writethumbnail := false
  socket_timeout := 20
  http_chunk_size := 10485760
  retries := 2
  fragment_retries := 2

/-- The quality-dependent format-selection expression chosen by
`_get_ydl_options`. -/
def selectFormat (quality : String) : String :=
  if quality = "128" then "bestaudio[abr<=128]/bestaudio"
  else if quality = "192" then "bestaudio[abr<=192]/bestaudio"
  else if quality = "320" then "bestaudio/best"
  else "bestaudio[abr<=192]/bestaudio"

/-- `AudioProcessor._get_ydl_options`: the base dictionary with its
`format` key overwritten according to the quality string. -/
def get_ydl_options (quality : String) : YdlOptions :=
  { baseYdlOpts with format := selectFormat quality }

/-! ### Link identification (`extract_spotify_id`) -/

/-- `[a-zA-Z0-9]`, the character class of the id-capturing groups. -/
def isAlnumChar (c : Char) : Bool := c.isAlpha || c.isDigit

/-- If `lit` is a prefix of `s`, the remainder of `s` after it. -/
def dropAfterLit : Str → Str → Option Str
  | [], s => some s
  | _ :: _, [] => none
  | c :: lt, d :: s => if c == d then dropAfterLit lt s else none

/-- `re.search` for a pattern of the shape `<literal>([a-zA-Z0-9]+)`:
the capture at the leftmost position where the literal is followed by at
least one alphanumeric character, taken greedily. -/
def searchCapture (lit : Str) : Str → Option Str
  | [] => none
  | c :: t =>
    match dropAfterLit lit (c :: t) with
    | some rest =>
      let cap := rest.takeWhile isAlnumChar
      if cap.isEmpty then searchCapture lit t else some cap
    | none => searchCapture lit t

/-- The web-URL patterns of `extract_spotify_id`, in their dictionary
(insertion) order: literal before the capture group, content type. -/
def urlPatterns : List (Str × Str) :=
  [(str "spotify.com/track/", str "track"),
   (str "spotify.com/playlist/", str "playlist"),
   (str "spotify.com/album/", str "album")]

/-- The `spotify:` URI patterns of `extract_spotify_id`, in order. -/
def uriPatterns : List (Str × Str) :=
  [(str "spotify:track:", str "track"),
   (str "spotify:playlist:", str "playlist"),
   (str "spotify:album:", str "album")]

/-- Tries each pattern in order; the first one whose search matches
wins, yielding the captured id and the content type. -/
def tryPatterns (ps : List (Str × Str)) (url : Str) : Option (Str × Str) :=
  match ps with
  | [] => none
  | (lit, ty) :: rest =>
    match searchCapture lit url with
    | some i => some (i, ty)
    | none => tryPatterns rest url

/-- `extract_spotify_id`: web-URL patterns first, then URI patterns;
`(none, none)` when nothing matches. -/
def extract_spotify_id (url : Str) : Option Str × Option Str :=
  match tryPatterns urlPatterns url with
  | some (i, ty) => (some i, some ty)
  | none =>
    match tryPatterns uriPatterns url with
    | some (i, ty) => (some i, some ty)
    | none => (none, none)

/-! ### Theorems for the configuration builder and link identification -/

/-- Claim C4: the extraction-configuration builder is total; every
quality string other than the recognized "128", "192", "320" yields
exactly the configuration of "192" (the MEDIUM tier, bitrate cap 192),
and the fixed fields (socket timeout 20, 10 MiB chunks, 2 connection
retries, 2 fragment retries, all non-audio artifacts disabled) are the
same for every input. -/
theorem c4_build_config_fallback_and_fixed_fields :
    (∀ q : String, q ≠ "128" → q ≠ "192" → q ≠ "320" →
      get_ydl_options q = get_ydl_options "192") ∧
    (get_ydl_options "192").format = "bestaudio[abr<=192]/bestaudio" ∧
    (∀ q : String,
      (get_ydl_options q).socket_timeout = 20 ∧
      (get_ydl_options q).http_chunk_size = 10485760 ∧
      (get_ydl_options q).retries = 2 ∧
      (get_ydl_options q).fragment_retries = 2 ∧
      (get_ydl_options q).writesubtitles = false ∧
      (get_ydl_options q).writeautomaticsub = false ∧
      (get_ydl_options q).writedescription = false ∧
      (get_ydl_options q).writeinfojson = false ∧
      (get_ydl_options q).writethumbnail = false) := by
  refine ⟨?_, rfl, ?_⟩
  · intro q h128 h192 h320
    simp [get_ydl_options, selectFormat, h128, h192, h320]
  · intro q
    exact ⟨rfl, rfl, rfl, rfl, rfl, rfl, rfl, rfl, rfl⟩

/-- Witness for C4 at the concrete unrecognized quality string "ultra". -/
theorem c4_build_config_witness :
    get_ydl_options "ultra" = get_ydl_options "192" :=
  c4_build_config_fallback_and_fixed_fields.1 "ultra"
    (by decide) (by decide) (by decide)

/-- Claim C7: link identification extracts (id, kind) for the web-URL
form and the URI form for kind in {track, playlist, album}, first
matching pattern winning, and returns (none, none) for any other
string; in particular the service's web track URL yields the id with
kind "track" and the `album` URI yields its id with kind "album".
(The spec writes the service's name as "example"; the source's literal
domain is used here.) -/
theorem c7_link_extraction :
    extract_spotify_id (str "https://open.spotify.com/track/4iV5W9uYEdYUVa79Axb7Rh") =
      (some (str "4iV5W9uYEdYUVa79Axb7Rh"), some (str "track")) ∧
    extract_spotify_id (str "spotify:album:abc123") =
      (some (str "abc123"), some (str "album")) ∧
    extract_spotify_id (str "https://example.org/watch?v=xyz") = (none, none) ∧
    (∀ url r, tryPatterns urlPatterns url = some r →
      extract_spotify_id url = (some r.1, some r.2)) ∧
    (∀ url r, tryPatterns urlPatterns url = none →
      tryPatterns uriPatterns url = some r →
      extract_spotify_id url = (some r.1, some r.2)) ∧
    (∀ url, tryPatterns urlPatterns url = none →
      tryPatterns uriPatterns url = none →
      extract_spotify_id url = (none, none)) := by
  refine ⟨by decide, by decide, by decide, ?_, ?_, ?_⟩
  · intro url r h
    simp [extract_spotify_id, h]
  · intro url r h1 h2
    simp [extract_spotify_id, h1, h2]
  · intro url h1 h2
    simp [extract_spotify_id, h1, h2]

/-- Witness for C7: the first-match-wins conjunct applied at the
concrete track URL. -/
theorem c7_link_extraction_witness :
    extract_spotify_id (str "https://open.spotify.com/track/4iV5W9uYEdYUVa79Axb7Rh") =
      (some (str "4iV5W9uYEdYUVa79Axb7Rh"), some (str "track")) :=
  c7_link_extraction.2.2.2.1
    (str "https://open.spotify.com/track/4iV5W9uYEdYUVa79Axb7Rh")
    (str "4iV5W9uYEdYUVa79Axb7Rh", str "track") (by decide)

/-! ### Filesystem model and output-path reconciliation -/

/-- The filesystem, modelled as the list of currently existing paths. -/
abbrev FS := List Str

/-- `os.path.exists`. -/
def pathExistsB (fs : FS) (p : Str) : Bool := fs.contains p

/-- The index of the last occurrence of `c` in `p` (`str.rfind`). -/
def rfindIdx (c : Char) : Str → Option Nat
  | [] => none
  | a :: t =>
    match rfindIdx c t with
    | some i => some (i + 1)
    | none => if a == c then some 0 else none

/-- `f.startswith(pre)`: does `s` begin with `pre`? -/
def startsWith : Str → Str → Bool
  | _, [] => true
  | [], _ :: _ => false
  | c :: s, d :: t => c == d && startsWith s t

/-- `os.path.basename`: the part of the path after the last slash. -/
def basenameOf (p : Str) : Str :=
  match rfindIdx '/' p with
  | none => p
  | some s => p.drop (s + 1)

/-- The root of `os.path.splitext(p)`: the path with its extension
stripped.  The extension starts at the last dot, provided that dot
comes after the last slash and the basename has a non-dot character
before it (so dot-files keep their name). -/
def splitextBase (p : Str) : Str :=
  match rfindIdx '.' p with
  | none => p
  | some d =>
    let fi : Nat :=
      match rfindIdx '/' p with
      | none => 0
      | some s => s + 1
    if fi ≤ d then
      if ((p.drop fi).take (d - fi)).any (fun ch => ch != '.') then p.take d
      else p
    else p

/-- `os.listdir(dir)`: names of the direct entries of `dir`, derived
from the existing paths, in filesystem order. -/
def listdirOf (fs : FS) (dir : Str) : List Str :=
  fs.filterMap (fun p =>
    if startsWith p (dir ++ ['/']) then
      let rest := p.drop (dir.length + 1)
      if rest.contains '/' then none else some rest
    else none)

/-- `os.path.join(dir, f)` for a relative entry name. -/
def joinPath (dir f : Str) : Str := dir ++ '/' :: f

/-- The ordered extension list probed by `_download_audio`. -/
def audioExts : List Str := [str ".mp3", str ".m4a", str ".webm", str ".ogg"]

/-- Lines 110-122 of `_download_audio`: strip the extension from the
expected path, probe the four audio extensions in order, then fall back
to scanning the workspace directory for an entry whose name starts with
the expected base filename; `none` when nothing is found. -/
def resolveOutput (fs : FS) (dir expected : Str) : Option Str :=
  let base := splitextBase expected
  match audioExts.find? (fun e => pathExistsB fs (base ++ e)) with
  | some e => some (base ++ e)
  | none =>
    match (listdirOf fs dir).find? (fun f => startsWith f (basenameOf base)) with
    | some f => some (joinPath dir f)
    | none => none

/-! ### The search-and-download step (`_download_audio`, `download_track`) -/

/-- One entry of the backend's search result (`video_info`). -/
structure VideoInfo where
  url : Str
deriving DecidableEq, Repr

/-- `AudioProcessor._download_audio`, with the extraction backend's
responses as parameters: `entries` is the search result (`none` for a
falsy/missing result, `some []` for an empty entry list), `fetch` is
the filesystem effect of `ydl.download` on the top result's URL, and
`prepFilename` is `ydl.prepare_filename`.  Returns the resolved path,
the filesystem afterwards, and whether the download was invoked. -/
def download_audio (fs : FS) (dir : Str) (entries : Option (List VideoInfo))
    (fetch : Str → FS → FS) (prepFilename : VideoInfo → Str) :
    Option Str × FS × Bool :=
  match entries with
  | none => (none, fs, false)
  | some [] => (none, fs, false)
  | some (v :: _) =>
    let fs1 := fetch v.url fs
    (resolveOutput fs1 dir (prepFilename v), fs1, true)

/-- The wall-clock ceiling passed to `asyncio.wait_for` in
`download_track` (line 58). -/
def timeoutSeconds : Nat := 60

/-- The worker-thread call made by `download_track`: its duration, the
value `_download_audio` returns (or would return), and the filesystem
once the call has run its course (including any partial writes). -/
structure BackendCall where
  elapsed : Nat
  result : Option Str
  fsAfter : FS

/-- `AudioProcessor.download_track`, from the dispatch of the worker
call onwards: if the call exceeds the 60-unit ceiling, the timeout is
caught and `none` is returned with the filesystem untouched by the
executor; otherwise the result is returned only if the path exists on
disk at that moment. -/
def download_track (call : BackendCall) : Option Str × FS :=
  if timeoutSeconds < call.elapsed then (none, call.fsAfter)
  else
    match call.result with
    | some p =>
      if pathExistsB call.fsAfter p then (some p, call.fsAfter)
      else (none, call.fsAfter)
    | none => (none, call.fsAfter)

/-! ### Helper lemmas about `find?` -/

/-- If every element of `l` fails `p`, `find?` yields nothing. -/
theorem findNoneOfAllFalse {α : Type} (p : α → Bool) (l : List α)
    (h : ∀ a ∈ l, p a = false) : l.find? p = none := by
  rw [List.find?_eq_none]
  intro x hx
  simp [h x hx]

/-- If the element at index `i` satisfies `p` and everything before it
fails `p`, `find?` yields exactly that element. -/
theorem findSomeOfFirst {α : Type} (p : α → Bool) (l : List α) (i : Nat) (a : α)
    (h : l[i]? = some a) (hp : p a = true)
    (hb : ((l.take i).all fun b => ! p b) = true) : l.find? p = some a := by
  induction l generalizing i with
  | nil => simp at h
  | cons x t ih =>
    cases i with
    | zero =>
      simp at h
      subst h
      simp [List.find?, hp]
    | succ n =>
      rw [List.take_succ_cons, List.all_cons, Bool.and_eq_true] at hb
      obtain ⟨hx, ht⟩ := hb
      simp at h
      rw [List.find?]
      have hpx : p x = false := by
        cases hpxv : p x
        · rfl
        · rw [hpxv] at hx
          simp at hx
      rw [hpx]
      exact ih n h ht

/-- Bool-valued variant: if `l.all (fun a => !p a)`, `find?` yields
nothing. -/
theorem findNoneOfAllNeg {α : Type} (p : α → Bool) (l : List α)
    (h : (l.all fun a => ! p a) = true) : l.find? p = none := by
  apply findNoneOfAllFalse
  intro a ha
  rw [List.all_eq_true] at h
  have := h a ha
  simp at this
  simp [this]

/-! ### Theorems for the download executor -/

/-- Claim C1: output-path reconciliation strips the extension from the
expected path, probes `.mp3`, `.m4a`, `.webm`, `.ogg` in exactly that
order and returns the first base+extension existing on disk; if none
exists it returns the first workspace-directory entry whose name starts
with the expected base filename; if still nothing is found it returns
no path. -/
theorem c1_output_reconciliation (fs : FS) (dir expected : Str) :
    (∀ i e, audioExts[i]? = some e →
      pathExistsB fs (splitextBase expected ++ e) = true →
      ((audioExts.take i).all fun e2 =>
        ! pathExistsB fs (splitextBase expected ++ e2)) = true →
      resolveOutput fs dir expected = some (splitextBase expected ++ e)) ∧
    ((audioExts.all fun e =>
        ! pathExistsB fs (splitextBase expected ++ e)) = true →
      ∀ k f, (listdirOf fs dir)[k]? = some f →
        startsWith f (basenameOf (splitextBase expected)) = true →
        (((listdirOf fs dir).take k).all fun f2 =>
          ! startsWith f2 (basenameOf (splitextBase expected))) = true →
        resolveOutput fs dir expected = some (joinPath dir f)) ∧
    ((audioExts.all fun e =>
        ! pathExistsB fs (splitextBase expected ++ e)) = true →
      ((listdirOf fs dir).all fun f =>
        ! startsWith f (basenameOf (splitextBase expected))) = true →
      resolveOutput fs dir expected = none) := by
  refine ⟨?_, ?_, ?_⟩
  · intro i e hget hp hb
    have hf : audioExts.find?
        (fun e2 => pathExistsB fs (splitextBase expected ++ e2)) = some e :=
      findSomeOfFirst _ _ i e hget hp hb
    simp [resolveOutput, hf]
  · intro hexts k f hget hpf hb
    have hn : audioExts.find?
        (fun e => pathExistsB fs (splitextBase expected ++ e)) = none :=
      findNoneOfAllNeg _ _ hexts
    have hf : (listdirOf fs dir).find?
        (fun f2 => startsWith f2 (basenameOf (splitextBase expected))) = some f :=
      findSomeOfFirst _ _ k f hget hpf hb
    simp [resolveOutput, hn, hf]
  · intro hexts hlist
    have hn : audioExts.find?
        (fun e => pathExistsB fs (splitextBase expected ++ e)) = none :=
      findNoneOfAllNeg _ _ hexts
    have hn2 : (listdirOf fs dir).find?
        (fun f2 => startsWith f2 (basenameOf (splitextBase expected))) = none :=
      findNoneOfAllNeg _ _ hlist
    simp [resolveOutput, hn, hn2]

/-- Witness for C1: the template declares `.webm` but only the `.m4a`
file exists; reconciliation returns the `.m4a` path. -/
theorem c1_output_reconciliation_witness :
    resolveOutput [str "/w/song.m4a"] (str "/w") (str "/w/song.webm") =
      some (str "/w/song.m4a") := by
  have h := (c1_output_reconciliation [str "/w/song.m4a"] (str "/w")
    (str "/w/song.webm")).1 1 (str ".m4a") (by decide) (by decide) (by decide)
  exact h

/-- Claim C2: the search-and-download step is bounded by the fixed
60-unit wall-clock ceiling; on expiry the executor returns a failure
(no path) and performs no cancellation or cleanup: the filesystem is
returned exactly as the abandoned backend call leaves it. -/
theorem c2_timeout_abandons_job :
    timeoutSeconds = 60 ∧
    ∀ call : BackendCall, timeoutSeconds < call.elapsed →
      download_track call = (none, call.fsAfter) := by
  refine ⟨rfl, ?_⟩
  intro call h
  simp [download_track, h]

/-- Witness for C2 at a 61-unit backend call that left a partial file. -/
theorem c2_timeout_witness :
    download_track ⟨61, some (str "/w/a.mp3"), [str "/w/a.part"]⟩ =
      (none, [str "/w/a.part"]) :=
  c2_timeout_abandons_job.2 ⟨61, some (str "/w/a.mp3"), [str "/w/a.part"]⟩
    (by decide)

/-- Claim C3: an empty search result set (falsy result or empty entry
list) short-circuits to a failure without invoking the download
operation and without writing any file: the filesystem is unchanged and
the invoked flag is false. -/
theorem c3_empty_search_short_circuits :
    ∀ (fs : FS) (dir : Str) (fetch : Str → FS → FS) (prep : VideoInfo → Str),
      download_audio fs dir none fetch prep = (none, fs, false) ∧
      download_audio fs dir (some []) fetch prep = (none, fs, false) := by
  intro fs dir fetch prep
  exact ⟨rfl, rfl⟩

/-- Claim C10: whenever the public download operation returns a path,
that path exists on the filesystem at the moment of return. -/
theorem c10_returned_path_exists (call : BackendCall) (p : Str)
    (h : (download_track call).1 = some p) :
    pathExistsB (download_track call).2 p = true := by
  by_cases ht : timeoutSeconds < call.elapsed
  · simp [download_track, ht] at h
  · cases hr : call.result with
    | none => simp [download_track, ht, hr] at h
    | some q =>
      by_cases he : pathExistsB call.fsAfter q = true
      · have hdt : download_track call = (some q, call.fsAfter) := by
          simp [download_track, ht, hr, he]
        rw [hdt] at h ⊢
        simp at h
        subst h
        exact he
      · rw [Bool.not_eq_true] at he
        simp [download_track, ht, hr, he] at h

/-- Witness for C10: a completed call whose declared path is present. -/
theorem c10_returned_path_exists_witness :
    pathExistsB (download_track ⟨10, some (str "/w/x.mp3"), [str "/w/x.mp3"]⟩).2
      (str "/w/x.mp3") = true :=
  c10_returned_path_exists ⟨10, some (str "/w/x.mp3"), [str "/w/x.mp3"]⟩
    (str "/w/x.mp3") (by decide)

/-! ### Filename sanitization (`sanitize_filename`) -/

/-- The filesystem-illegal characters of the sanitizer's character
class. -/
def invalidChars : List Char := ['<', '>', ':', '"', '/', '\\', '|', '?', '*']

/-- Is `c` one of the filesystem-illegal characters? -/
def isInvalidChar (c : Char) : Bool := invalidChars.contains c

/-- `re.sub` of the illegal-character class with an underscore: a
per-character, position-preserving replacement. -/
def replaceInvalid (s : Str) : Str :=
  s.map fun c => if isInvalidChar c then '_' else c

/-- `str.strip(chars)`: removes the characters of `cs` from both ends. -/
def stripBoth (cs : List Char) (s : Str) : Str :=
  ((s.dropWhile (fun c => cs.contains c)).reverse.dropWhile
    (fun c => cs.contains c)).reverse

/-- `sanitize_filename`: replace illegal characters with underscores,
strip leading/trailing spaces and dots, cap the length at 200. -/
def sanitize_filename (s : Str) : Str :=
  let t := stripBoth [' ', '.'] (replaceInvalid s)
  if t.length > 200 then t.take 200 else t

/-- The head of a `dropWhile` result never satisfies the dropped
predicate. -/
theorem headOfDropWhileFalse (p : Char → Bool) (l : Str) (c : Char)
    (h : (l.dropWhile p).head? = some c) : p c = false := by
  induction l with
  | nil => simp [List.dropWhile] at h
  | cons a t ih =>
    rw [List.dropWhile] at h
    cases hpa : p a with
    | true => rw [hpa] at h; exact ih h
    | false =>
      rw [hpa] at h
      simp at h
      rw [h] at hpa
      exact hpa

/-- A nonempty `dropWhile` result keeps the last element of the input. -/
theorem getLastOfDropWhile (p : Char → Bool) (m : Str) (c : Char)
    (h : (m.dropWhile p).getLast? = some c) : m.getLast? = some c := by
  induction m with
  | nil => simp [List.dropWhile] at h
  | cons a t ih =>
    rw [List.dropWhile] at h
    cases hpa : p a with
    | true =>
      rw [hpa] at h
      have ht := ih h
      cases t with
      | nil => simp at ht
      | cons x xs => rw [List.getLast?_cons_cons]; exact ht
    | false => rw [hpa] at h; exact h

/-- The length cap in `sanitize_filename` is a plain 200-element
truncation of the stripped string. -/
theorem sanitizeEqTake (s : Str) :
    sanitize_filename s = (stripBoth [' ', '.'] (replaceInvalid s)).take 200 := by
  unfold sanitize_filename
  by_cases h : (stripBoth [' ', '.'] (replaceInvalid s)).length > 200
  · simp [h]
  · simp only [h, if_false]
    rw [List.take_of_length_le (by omega)]

/-- Claim C8: sanitization replaces (rather than drops) each
filesystem-illegal character — the replacement stage is per-character
and position-preserving and the output contains no illegal character —
trims leading and trailing space and separator (dot) characters, and
the result never exceeds 200 characters. -/
theorem c8_sanitize_filename (s : Str) :
    (∀ c, c ∈ sanitize_filename s → isInvalidChar c = false) ∧
    (sanitize_filename s).length ≤ 200 ∧
    (replaceInvalid s).length = s.length ∧
    (∀ i : Nat, (replaceInvalid s)[i]? =
      (s[i]?).map fun c => if isInvalidChar c then '_' else c) ∧
    (∀ c, (stripBoth [' ', '.'] (replaceInvalid s)).head? = some c →
      ([' ', '.'].contains c) = false) ∧
    (∀ c, (stripBoth [' ', '.'] (replaceInvalid s)).getLast? = some c →
      ([' ', '.'].contains c) = false) := by
  refine ⟨?_, ?_, ?_, ?_, ?_, ?_⟩
  · intro c hc
    have hrep : c ∈ replaceInvalid s := by
      have h1 : sanitize_filename s ⊆ stripBoth [' ', '.'] (replaceInvalid s) := by
        rw [sanitizeEqTake]
        exact List.take_subset _ _
      have h2 : stripBoth [' ', '.'] (replaceInvalid s) ⊆ replaceInvalid s := by
        unfold stripBoth
        intro x hx
        rw [List.mem_reverse] at hx
        have hx2 := (List.dropWhile_sublist _).subset hx
        rw [List.mem_reverse] at hx2
        exact (List.dropWhile_sublist _).subset hx2
      exact h2 (h1 hc)
    rw [replaceInvalid, List.mem_map] at hrep
    obtain ⟨a, _, ha⟩ := hrep
    by_cases hia : isInvalidChar a = true
    · rw [hia] at ha; simp at ha; rw [← ha]; decide
    · rw [Bool.not_eq_true] at hia
      rw [hia] at ha; simp at ha; rw [← ha]; exact hia
  · rw [sanitizeEqTake]
    rw [List.length_take]
    omega
  · simp [replaceInvalid]
  · intro i
    simp [replaceInvalid]
  · intro c hc
    unfold stripBoth at hc
    rw [List.head?_reverse] at hc
    have hm := getLastOfDropWhile _ _ _ hc
    rw [List.getLast?_reverse] at hm
    exact headOfDropWhileFalse _ _ _ hm
  · intro c hc
    unfold stripBoth at hc
    rw [List.getLast?_reverse] at hc
    exact headOfDropWhileFalse _ _ _ hc

/-- Witness for C8 at the concrete name `a<b. `: the sanitized result
is `a_b` and its underscore is not an illegal character. -/
theorem c8_sanitize_filename_witness :
    isInvalidChar '_' = false :=
  (c8_sanitize_filename (str "a<b. ")).1 '_' (by decide)

/-! ### Collection (playlist/album) download loop

`start_playlist_download` and `start_album_download` share the same
loop: per track, edit the progress message, download, send the file and
count the success, with a catch-all that continues to the next track;
a final summary follows the loop.  The chat edits and sends are
external-collaborator calls whose success is a parameter.  The trace of
user-visible events is modelled explicitly. -/

/-- One user-visible event of a collection download. -/
inductive Ev where
  /-- The progress edit for track `i` of `total`, with the bar's filled
  cell count and the percentage as the source computes them. -/
  | progress (i total filled pct : Nat)
  /-- The download attempt of track `i`; `gotFile` records whether the
  download returned a file path. -/
  | attempt (i : Nat) (gotFile : Bool)
  /-- The audio send for track `i`. -/
  | sent (i : Nat)
  /-- The final summary: `succ` successes out of `total`. -/
  | summary (succ total : Nat)
deriving DecidableEq, Repr

/-- The behaviour of one loop iteration's external calls: whether the
progress edit raises, what `download_track` returns, and whether the
audio send raises. -/
structure TrackRun where
  editRaises : Bool
  downloadResult : Option Str
  sendRaises : Bool
deriving DecidableEq, Repr

/-- Did this track's iteration increment the success counter? -/
def succTrack (b : TrackRun) : Bool :=
  !b.editRaises && b.downloadResult.isSome && !b.sendRaises

/-- One iteration of the collection loop (the body of the `try`): the
events it emits and its success increment.  A raise anywhere lands in
the `except: continue` of the source. -/
def runTrack (i total : Nat) (b : TrackRun) : List Ev × Nat :=
  if b.editRaises then ([], 0)
  else
    match b.downloadResult with
    | none => ([Ev.progress i total (i * 10 / total) (i * 100 / total),
                Ev.attempt i false], 0)
    | some _ =>
      if b.sendRaises then
        ([Ev.progress i total (i * 10 / total) (i * 100 / total),
          Ev.attempt i true], 0)
      else
        ([Ev.progress i total (i * 10 / total) (i * 100 / total),
          Ev.attempt i true, Ev.sent i], 1)

/-- The loop over the remaining tracks, numbering them from `i`. -/
def runCollectionAux (total i : Nat) : List TrackRun → List Ev × Nat
  | [] => ([], 0)
  | b :: rest =>
    ((runTrack i total b).1 ++ (runCollectionAux total (i + 1) rest).1,
     (runTrack i total b).2 + (runCollectionAux total (i + 1) rest).2)

/-- The shared loop of `start_playlist_download` /
`start_album_download`: iterate all tracks from 1, then emit the final
summary.  Returns the event trace and the success count. -/
def runCollection (bs : List TrackRun) : List Ev × Nat :=
  ((runCollectionAux bs.length 1 bs).1 ++
    [Ev.summary (runCollectionAux bs.length 1 bs).2 bs.length],
   (runCollectionAux bs.length 1 bs).2)

/-- One iteration's increment is 1 exactly on a full success. -/
theorem runTrackCount (i total : Nat) (b : TrackRun) :
    (runTrack i total b).2 = if succTrack b then 1 else 0 := by
  obtain ⟨e, d, sr⟩ := b
  cases e <;> cases d <;> cases sr <;> simp [runTrack, succTrack]

/-- The loop's success count is the number of fully successful tracks. -/
theorem runCollectionAuxCount (bs : List TrackRun) :
    ∀ total i, (runCollectionAux total i bs).2 = bs.countP succTrack := by
  induction bs with
  | nil => intro total i; simp [runCollectionAux]
  | cons b rest ih =>
    intro total i
    rw [runCollectionAux]
    simp only [runTrackCount, List.countP_cons, ih]
    split <;> omega

/-- A non-raising iteration emits its attempt event. -/
theorem runTrackAttemptMem (i total : Nat) (b : TrackRun)
    (h : b.editRaises = false) :
    Ev.attempt i b.downloadResult.isSome ∈ (runTrack i total b).1 := by
  obtain ⟨e, d, sr⟩ := b
  simp only at h
  subst h
  cases d <;> cases sr <;> simp [runTrack]

/-- Every track whose progress edit goes through has its attempt event
in the loop trace, at its sequence number. -/
theorem runCollectionAuxAttempt (bs : List TrackRun) :
    ∀ total i k b, bs[k]? = some b → b.editRaises = false →
      Ev.attempt (i + k) b.downloadResult.isSome ∈
        (runCollectionAux total i bs).1 := by
  induction bs with
  | nil => intro total i k b h _; simp at h
  | cons x rest ih =>
    intro total i k b h he
    cases k with
    | zero =>
      simp at h
      subst h
      rw [runCollectionAux]
      apply List.mem_append_left
      simpa using runTrackAttemptMem i total x he
    | succ n =>
      simp at h
      have hm := ih total (i + 1) n b h he
      rw [runCollectionAux]
      have harith : i + (n + 1) = (i + 1) + n := by omega
      rw [harith]
      exact List.mem_append_right _ hm

/-- Claim C5: a single track's failure never aborts the collection:
the loop reaches every track (each non-raising iteration's attempt
event is in the trace, at its position), failures are merely counted as
non-successes (the success count is the number of fully successful
iterations), and the trace always ends with the summary reporting
successCount out of totalCount. -/
theorem c5_collection_never_aborts (bs : List TrackRun) :
    (runCollection bs).2 = bs.countP succTrack ∧
    (runCollection bs).1.getLast? =
      some (Ev.summary (bs.countP succTrack) bs.length) ∧
    (∀ k b, bs[k]? = some b → b.editRaises = false →
      Ev.attempt (k + 1) b.downloadResult.isSome ∈ (runCollection bs).1) := by
  refine ⟨?_, ?_, ?_⟩
  · simp [runCollection, runCollectionAuxCount]
  · simp [runCollection, runCollectionAuxCount, List.getLast?_concat]
  · intro k b h he
    have hm := runCollectionAuxAttempt bs bs.length 1 k b h he
    have harith : (1 : Nat) + k = k + 1 := by omega
    rw [harith] at hm
    exact List.mem_append_left _ hm

/-- Witness for C5: a 5-track collection where tracks 2 and 4 fail
(download returns no file); the summary reports 3/5 and the failed
track 2 still has its attempt event. -/
theorem c5_collection_witness :
    (runCollection [⟨false, some (str "t1.mp3"), false⟩, ⟨false, none, false⟩,
      ⟨false, some (str "t3.mp3"), false⟩, ⟨false, none, false⟩,
      ⟨false, some (str "t5.mp3"), false⟩]).1.getLast? =
        some (Ev.summary 3 5) ∧
    Ev.attempt 2 false ∈
      (runCollection [⟨false, some (str "t1.mp3"), false⟩, ⟨false, none, false⟩,
        ⟨false, some (str "t3.mp3"), false⟩, ⟨false, none, false⟩,
        ⟨false, some (str "t5.mp3"), false⟩]).1 := by
  constructor
  · have h := (c5_collection_never_aborts [⟨false, some (str "t1.mp3"), false⟩,
      ⟨false, none, false⟩, ⟨false, some (str "t3.mp3"), false⟩,
      ⟨false, none, false⟩, ⟨false, some (str "t5.mp3"), false⟩]).2.1
    exact h
  · have h := (c5_collection_never_aborts [⟨false, some (str "t1.mp3"), false⟩,
      ⟨false, none, false⟩, ⟨false, some (str "t3.mp3"), false⟩,
      ⟨false, none, false⟩, ⟨false, some (str "t5.mp3"), false⟩]).2.2
      1 ⟨false, none, false⟩ (by decide) (by decide)
    exact h

/-- A lookup that succeeds in `l₁` succeeds unchanged in `l₁ ++ l₂`. -/
theorem getElemAppendOfSome {α : Type} (l1 l2 : List α) (n : Nat) (a : α)
    (h : l1[n]? = some a) : (l1 ++ l2)[n]? = some a := by
  have hn : n < l1.length := by
    by_contra hge
    rw [List.getElem?_eq_none (by omega)] at h
    exact Option.noConfusion h
  rw [List.getElem?_append_left hn]
  exact h

/-- The event block of a non-raising iteration: the progress edit, then
the attempt, then the send exactly on full success. -/
theorem runTrackShape (i total : Nat) (b : TrackRun)
    (h : b.editRaises = false) :
    (runTrack i total b).1 =
      Ev.progress i total (i * 10 / total) (i * 100 / total) ::
      Ev.attempt i b.downloadResult.isSome ::
      (if succTrack b then [Ev.sent i] else []) := by
  obtain ⟨e, d, sr⟩ := b
  simp only at h
  subst h
  cases d <;> cases sr <;> simp [runTrack, succTrack]

/-- In the loop trace, each non-raising track's attempt event is
immediately preceded by that track's progress event. -/
theorem runCollectionAuxProgressBeforeAttempt (bs : List TrackRun) :
    ∀ total i k b, bs[k]? = some b → b.editRaises = false →
      ∃ j, (runCollectionAux total i bs).1[j]? =
             some (Ev.progress (i + k) total ((i + k) * 10 / total)
               ((i + k) * 100 / total)) ∧
           (runCollectionAux total i bs).1[j + 1]? =
             some (Ev.attempt (i + k) b.downloadResult.isSome) := by
  induction bs with
  | nil => intro total i k b h _; simp at h
  | cons x rest ih =>
    intro total i k b h he
    cases k with
    | zero =>
      simp at h
      subst h
      refine ⟨0, ?_, ?_⟩
      · rw [runCollectionAux, runTrackShape i total x he]
        simp
      · rw [runCollectionAux, runTrackShape i total x he]
        simp
    | succ n =>
      simp at h
      obtain ⟨j, hj1, hj2⟩ := ih total (i + 1) n b h he
      refine ⟨(runTrack i total x).1.length + j, ?_, ?_⟩
      · rw [runCollectionAux]
        rw [List.getElem?_append_right (by omega)]
        have e1 : (runTrack i total x).1.length + j -
            (runTrack i total x).1.length = j := by omega
        rw [e1]
        have e2 : i + (n + 1) = (i + 1) + n := by omega
        rw [e2]
        exact hj1
      · rw [runCollectionAux]
        rw [List.getElem?_append_right (by omega)]
        have e1 : (runTrack i total x).1.length + j + 1 -
            (runTrack i total x).1.length = j + 1 := by omega
        rw [e1]
        have e2 : i + (n + 1) = (i + 1) + n := by omega
        rw [e2]
        exact hj2

/-- The claim's ordering, stated of a trace: after every attempt event
there is a later progress-indicator event. -/
def progressComesAfterEachAttempt (tr : List Ev) : Bool :=
  (List.range tr.length).all fun k =>
    match tr[k]? with
    | some (Ev.attempt _ _) =>
      (List.range tr.length).any fun j =>
        decide (k < j) && (match tr[j]? with
                           | some (Ev.progress _ _ _ _) => true
                           | _ => false)
    | _ => true

/-- Counterexample to C6 as stated: in a one-track collection whose
download succeeds, no progress indicator follows the attempt — the
progress edit precedes each attempt, and after the last attempt only
the summary is emitted. -/
theorem c6_progress_counterexample :
    progressComesAfterEachAttempt
      (runCollection [⟨false, some (str "t1.mp3"), false⟩]).1 = false := by
  decide

/-- Claim C6 (amended): during a collection job the progress indicator
(current/total, bar fill, percentage) for track `i` is updated and
emitted immediately BEFORE track `i`'s download attempt — not after it
— and this emission happens for every track whose progress edit goes
through, regardless of any attempt's outcome. -/
theorem c6_progress_before_each_attempt (bs : List TrackRun) (k : Nat)
    (b : TrackRun) (h : bs[k]? = some b) (he : b.editRaises = false) :
    ∃ j, (runCollection bs).1[j]? =
           some (Ev.progress (k + 1) bs.length ((k + 1) * 10 / bs.length)
             ((k + 1) * 100 / bs.length)) ∧
         (runCollection bs).1[j + 1]? =
           some (Ev.attempt (k + 1) b.downloadResult.isSome) := by
  obtain ⟨j, h1, h2⟩ :=
    runCollectionAuxProgressBeforeAttempt bs bs.length 1 k b h he
  have e : 1 + k = k + 1 := by omega
  rw [e] at h1 h2
  exact ⟨j, getElemAppendOfSome _ _ _ _ h1, getElemAppendOfSome _ _ _ _ h2⟩

/-- Witness for the amended C6: in the one-track collection the
progress event sits at index 0, directly before the attempt at 1. -/
theorem c6_progress_witness :
    (runCollection [⟨false, some (str "t1.mp3"), false⟩]).1[0]? =
        some (Ev.progress 1 1 10 100) ∧
    (runCollection [⟨false, some (str "t1.mp3"), false⟩]).1[1]? =
        some (Ev.attempt 1 true) := by
  obtain ⟨j, h1, h2⟩ := c6_progress_before_each_attempt
    [⟨false, some (str "t1.mp3"), false⟩] 0 ⟨false, some (str "t1.mp3"), false⟩
    (by decide) (by decide)
  have hlen : (runCollection [(⟨false, some (str "t1.mp3"), false⟩ :
      TrackRun)]).1.length = 4 := by decide
  have hj : j < 4 := by
    by_contra hge
    rw [List.getElem?_eq_none (by omega)] at h1
    exact Option.noConfusion h1
  interval_cases j
  · exact ⟨h1, h2⟩
  · exfalso; revert h1; decide
  · exfalso; revert h1; decide
  · exfalso; revert h1; decide

/-! ### Workspace lifecycle manager (`cleanup_file`, `cleanup_all`)

The workspace is one directory; its files are tracked by name.  OS
calls may fail (permission errors, concurrent removal); the fault model
says which ones do.  Exceptions are modelled with `Except`: the value a
caller of the cleanup methods observes is `Except.error` exactly when
an exception escapes to it. -/

/-- The workspace directory: whether it still exists and the names of
the files currently inside it. -/
structure WS where
  dirPresent : Bool
  files : List Str
deriving DecidableEq, Repr

/-- Which OS removal calls fail (raising `OSError`). -/
structure FaultModel where
  removeFailsAt : Str → Bool
  rmdirFails : Bool

/-- `os.path.exists` inside the workspace. -/
def wsPathExists (ws : WS) (p : Str) : Bool :=
  ws.dirPresent && ws.files.contains p

/-- `os.remove`: deletes the file or raises (per the fault model, or
when the file is already gone). -/
def osRemove (flt : FaultModel) (ws : WS) (p : Str) : Except Unit WS :=
  if flt.removeFailsAt p then Except.error ()
  else if wsPathExists ws p then
    Except.ok { ws with files := ws.files.erase p }
  else Except.error ()

/-- The body of `cleanup_file` with its try/except applied: remove the
file if it exists; any error is swallowed (logged), leaving the state
as the failed call left it. -/
def cleanupFileRun (flt : FaultModel) (ws : WS) (p : Str) : WS :=
  if wsPathExists ws p then
    match osRemove flt ws p with
    | Except.ok w => w
    | Except.error _ => ws
  else ws

/-- `AudioProcessor.cleanup_file` as its caller observes it: the
catch-all means it never raises. -/
def cleanup_file (flt : FaultModel) (ws : WS) (p : Str) : Except Unit WS :=
  Except.ok (cleanupFileRun flt ws p)

/-- The body of `cleanup_all` with its try/except applied: list the
directory (raising if it is gone), run `cleanup_file` on every entry,
then `os.rmdir` the directory (raising on faults or a non-empty
directory); a raise is swallowed, keeping the state reached so far. -/
def cleanupAllRun (flt : FaultModel) (ws : WS) : WS :=
  if ws.dirPresent then
    let ws2 := ws.files.foldl (fun w n => cleanupFileRun flt w n) ws
    if flt.rmdirFails || ! ws2.files.isEmpty then ws2
    else { ws2 with dirPresent := false }
  else ws

/-- `AudioProcessor.cleanup_all` as its caller observes it: the
catch-all means it never raises. -/
def cleanup_all (flt : FaultModel) (ws : WS) : Except Unit WS :=
  Except.ok (cleanupAllRun flt ws)

/-- Folding fault-free removals over a snapshot of the directory's
file list empties it and keeps the directory present. -/
theorem foldCleanupEmpties (flt : FaultModel)
    (hf : ∀ p, flt.removeFailsAt p = false) :
    ∀ (l : List Str) (ws : WS), ws.dirPresent = true → ws.files = l →
      (l.foldl (fun w n => cleanupFileRun flt w n) ws).files = [] ∧
      (l.foldl (fun w n => cleanupFileRun flt w n) ws).dirPresent = true := by
  intro l
  induction l with
  | nil =>
    intro ws hd hfl
    exact ⟨by simp [hfl], hd⟩
  | cons n t ih =>
    intro ws hd hfl
    rw [List.foldl]
    have hex : wsPathExists ws n = true := by
      rw [wsPathExists, hd, hfl]
      simp [List.contains_cons]
    have hstep : cleanupFileRun flt ws n = { ws with files := t } := by
      simp only [cleanupFileRun, osRemove, hex, hf n]
      simp [hfl]
    rw [hstep]
    exact ih { ws with files := t } hd rfl

/-- Claim C9: cleanup is best-effort and never raises to the caller:
`cleanup_file` removes the file if it exists, is a no-op when the file
is already gone, and swallows any error; `cleanup_all` removes every
file and then the directory when nothing faults, swallows any failure,
and repeated calls do not raise; after a successful `cleanup_all` no
files remain under the workspace path. -/
theorem c9_cleanup_best_effort :
    (∀ flt ws p, ∃ w, cleanup_file flt ws p = Except.ok w) ∧
    (∀ flt ws p, wsPathExists ws p = false →
      cleanup_file flt ws p = Except.ok ws) ∧
    (∀ flt ws p, flt.removeFailsAt p = false → wsPathExists ws p = true →
      cleanup_file flt ws p = Except.ok { ws with files := ws.files.erase p }) ∧
    (∀ flt ws, ∃ w, cleanup_all flt ws = Except.ok w) ∧
    (∀ flt ws, (∀ p, flt.removeFailsAt p = false) → flt.rmdirFails = false →
      ws.dirPresent = true →
      cleanup_all flt ws = Except.ok { dirPresent := false, files := [] }) ∧
    (∀ flt ws, ws.dirPresent = false →
      cleanup_all flt ws = Except.ok ws) := by
  refine ⟨?_, ?_, ?_, ?_, ?_, ?_⟩
  · intro flt ws p
    exact ⟨cleanupFileRun flt ws p, rfl⟩
  · intro flt ws p h
    rw [cleanup_file, cleanupFileRun, h]
    simp
  · intro flt ws p hf hex
    simp only [cleanup_file, cleanupFileRun, osRemove, hex, hf]
    simp
  · intro flt ws
    exact ⟨cleanupAllRun flt ws, rfl⟩
  · intro flt ws hf hr hd
    have hfold : ws.files.foldl (fun w n => cleanupFileRun flt w n) ws =
        { dirPresent := true, files := [] } := by
      obtain ⟨hemp, hpres⟩ := foldCleanupEmpties flt hf ws.files ws hd rfl
      cases hres : ws.files.foldl (fun w n => cleanupFileRun flt w n) ws with
      | mk d f =>
        rw [hres] at hemp hpres
        simp only at hemp hpres
        rw [hemp, hpres]
    simp only [cleanup_all, cleanupAllRun, hd, hfold, hr]
    simp
  · intro flt ws hd
    rw [cleanup_all, cleanupAllRun, hd]
    simp

/-- Witness for C9: a fault-free `cleanup_all` on a two-file workspace
empties it and removes the directory, without raising. -/
theorem c9_cleanup_witness :
    cleanup_all ⟨fun _ => false, false⟩ ⟨true, [str "a.mp3", str "b.m4a"]⟩ =
      Except.ok { dirPresent := false, files := [] } :=
  c9_cleanup_best_effort.2.2.2.2.1 ⟨fun _ => false, false⟩
    ⟨true, [str "a.mp3", str "b.m4a"]⟩ (fun _ => rfl) rfl rfl
